import Mathlib

/-!
# Verification of the signature-keyed tracing-and-compilation cache

A shallow embedding of `dg_benchmarks` (files
`src/dg_benchmarks/codegen/__init__.py`, `src/dg_benchmarks/measure.py`)
and proofs about the claims on its specification.

Modelling conventions:

* Numeric arrays (`numpy` / `pytato` arrays) are modelled as `NDArray`:
  a shape, a dtype string and integer data.  Numeric closeness
  (`np.testing.assert_allclose`) is modelled as exact equality of this
  integer-data model; "diverges beyond tolerance" is modelled as inequality.
* Array containers (arraycontext's keyed containers, walked by
  `rec_keyed_map_array_container`) are modelled by the mutually inductive
  `Ctr` / `KList`: a container is either a leaf array or a finite keyed
  list of sub-containers.  Python `dict` keys are strings in the model.
* Stateful code (`LazilyArraycontextCompilingFunctionCaller.__call__`)
  becomes an explicit state-passing function `callStep` that returns the
  call's outcome, the updated in-memory `program_cache`, the number of
  invocations of the user function `f` performed by the call, and the
  ordered list of file writes performed.
* Fallible code returns `Except Err`.
-/

/-- A backend-neutral numeric array: shape, dtype and (integer) data.
Models both concrete `numpy`/`jax` arrays and the numeric content that the
reference artifacts capture. -/
structure NDArray where
  shape : List Nat
  dtype : String
  data : List Int
deriving DecidableEq, Repr

/-- A symbolic (traced) array node, as produced by tracing the user function
over placeholders: a shape, a dtype, and a deterministic derivation
(rendered as an expression string). -/
structure SymArr where
  shape : List Nat
  dtype : String
  expr : String
deriving DecidableEq, Repr

mutual
/-- An array container in the sense of arraycontext: either a bare array
(leaf) or a keyed collection of sub-containers.  This is the structure
walked by `rec_keyed_map_array_container`. -/
inductive Ctr (α : Type) where
  | leaf : α → Ctr α
  | node : KList α → Ctr α
deriving DecidableEq, Repr

/-- The keyed children of a container node (a Python mapping's items, in
iteration order). -/
inductive KList (α : Type) where
  | nil : KList α
  | cons : String → Ctr α → KList α → KList α
deriving DecidableEq, Repr
end

mutual
/-- `rec_keyed_map_array_container`: map over the leaves of a container,
passing each leaf its key path.  `pre` is the key path accumulated so far
(the tuple `keys` in the Python code). -/
def Ctr.mapWithKey (f : List String → α → β) (pre : List String) : Ctr α → Ctr β
  | .leaf a => .leaf (f pre a)
  | .node cs => .node (KList.mapWithKey f pre cs)

def KList.mapWithKey (f : List String → α → β) (pre : List String) : KList α → KList β
  | .nil => .nil
  | .cons k c rest =>
      .cons k (Ctr.mapWithKey f (pre ++ [k]) c) (KList.mapWithKey f pre rest)
end

mutual
/-- Flatten a container to the list of its (key path, leaf) pairs, in
container iteration order. -/
def Ctr.valuesWithPaths (pre : List String) : Ctr α → List (List String × α)
  | .leaf a => [(pre, a)]
  | .node cs => KList.valuesWithPaths pre cs

def KList.valuesWithPaths (pre : List String) : KList α → List (List String × α)
  | .nil => []
  | .cons k c rest =>
      Ctr.valuesWithPaths (pre ++ [k]) c ++ KList.valuesWithPaths pre rest
end

/-- The key paths of all leaves of a container (the `output_keys` set
collected by `_get_key_to_pos_in_output_template`). -/
def Ctr.paths (pre : List String) (c : Ctr α) : List (List String) :=
  (Ctr.valuesWithPaths pre c).map Prod.fst

/-- Modelled from the spec: arraycontext's `_ary_container_key_stringifier`
(not part of this repository's sources) deterministically stringifies a
container key path; modelled as joining the path components with an
underscore. -/
def keyStringifier (keys : List String) : String :=
  String.intercalate "_" keys

example : keyStringifier ["0", "u"] = "0_u" := by decide
example : Ctr.paths [] (Ctr.node (.cons "a" (.leaf (1 : Int))
    (.cons "b" (.leaf 2) .nil))) = [["a"], ["b"]] := by decide

/-- Python string comparison: code-point lexicographic strict order on the
character sequences. -/
def chListLt : List Char → List Char → Bool
  | [], [] => false
  | [], _ :: _ => true
  | _ :: _, [] => false
  | a :: as, b :: bs =>
      if a < b then true
      else if b < a then false
      else chListLt as bs

theorem chListLt_asymm : ∀ {a b : List Char},
    chListLt a b = true → chListLt b a = false
  | [], [], h => by simp [chListLt] at h
  | [], _ :: _, _ => by simp [chListLt]
  | _ :: _, [], h => by simp [chListLt] at h
  | a :: as, b :: bs, h => by
      by_cases h1 : a < b
      · simp [chListLt, h1, lt_asymm h1]
      · by_cases h2 : b < a
        · simp [chListLt, h1, h2] at h
        · simp only [chListLt, h1, h2, if_false] at h
          simp [chListLt, h1, h2, chListLt_asymm h]

theorem chListLt_trans : ∀ {a b c : List Char},
    chListLt a b = true → chListLt b c = true → chListLt a c = true
  | [], _, _ :: _, _, _ => by simp [chListLt]
  | [], _ :: _, [], _, h2 => by simp [chListLt] at h2
  | [], [], [], h1, _ => by simp [chListLt] at h1
  | _ :: _, [], _, h1, _ => by simp [chListLt] at h1
  | _ :: _, _ :: _, [], _, h2 => by simp [chListLt] at h2
  | a :: as, b :: bs, c :: cs, h1, h2 => by
      by_cases hab : a < b <;> by_cases hbc : b < c
      · simp [chListLt, lt_trans hab hbc]
      · have hcb : ¬ c < b := by
          intro hcb
          simp [chListLt, hbc, hcb] at h2
        have : b = c := le_antisymm (le_of_not_lt hcb) (le_of_not_lt hbc)
        subst this
        simp [chListLt, hab]
      · have hba : ¬ b < a := by
          intro hba
          simp [chListLt, hab, hba] at h1
        have : a = b := le_antisymm (le_of_not_lt hba) (le_of_not_lt hab)
        subst this
        simp [chListLt, hbc]
      · have hba : ¬ b < a := by
          intro hba
          simp [chListLt, hab, hba] at h1
        have hcb : ¬ c < b := by
          intro hcb
          simp [chListLt, hbc, hcb] at h2
        have hab' : a = b := le_antisymm (le_of_not_lt hba) (le_of_not_lt hab)
        have hbc' : b = c := le_antisymm (le_of_not_lt hcb) (le_of_not_lt hbc)
        subst hab'
        subst hbc'
        simp only [chListLt, lt_irrefl, if_false] at h1 h2 ⊢
        exact chListLt_trans h1 h2

theorem chListLt_eq_of_both_false : ∀ {a b : List Char},
    chListLt a b = false → chListLt b a = false → a = b
  | [], [], _, _ => rfl
  | [], _ :: _, h1, _ => by simp [chListLt] at h1
  | _ :: _, [], _, h2 => by simp [chListLt] at h2
  | a :: as, b :: bs, h1, h2 => by
      by_cases hab : a < b
      · simp [chListLt, hab] at h1
      · by_cases hba : b < a
        · simp [chListLt, hba] at h2
        · have : a = b := le_antisymm (le_of_not_lt hba) (le_of_not_lt hab)
          subst this
          simp only [chListLt, lt_irrefl, if_false] at h1 h2
          rw [chListLt_eq_of_both_false h1 h2]

/-- Python's `a <= b` on strings. -/
def strLeB (a b : String) : Bool := !(chListLt b.data a.data)

/-- `strLeB` as a relation (for the sorting library). -/
abbrev strLeP (a b : String) : Prop := strLeB a b = true

instance : DecidableRel strLeP := fun a b =>
  inferInstanceAs (Decidable (strLeB a b = true))

instance : IsTotal String strLeP := by
  constructor
  intro a b
  rcases h : chListLt b.data a.data with _ | _
  · exact Or.inl (by simp [strLeP, strLeB, h])
  · exact Or.inr (by simp [strLeP, strLeB, chListLt_asymm h])

instance : IsTrans String strLeP := by
  constructor
  intro a b c h1 h2
  simp only [strLeP, strLeB, Bool.not_eq_true', Bool.not_eq_true] at h1 h2 ⊢
  by_contra hlt
  rw [Bool.not_eq_false] at hlt
  rcases hab : chListLt a.data b.data with _ | _
  · have : a.data = b.data := chListLt_eq_of_both_false hab h1
    rw [← this] at h2
    rw [h2] at hlt
    exact Bool.false_ne_true hlt
  · have : chListLt c.data b.data = true := chListLt_trans hlt hab
    rw [h2] at this
    exact Bool.false_ne_true this

/-- The comparison used by `sorted(output_keys, key=_ary_container_key_stringifier)`:
key paths ordered by their stringified form. -/
abbrev strLe (a b : List String) : Prop :=
  strLeP (keyStringifier a) (keyStringifier b)

instance : DecidableRel strLe := fun a b =>
  inferInstanceAs (Decidable (strLeP (keyStringifier a) (keyStringifier b)))

instance : IsTotal (List String) strLe :=
  ⟨fun a b => IsTotal.total (r := strLeP) (keyStringifier a) (keyStringifier b)⟩

instance : IsTrans (List String) strLe :=
  ⟨fun _ _ _ hab hbc => IsTrans.trans (r := strLeP) _ _ _ hab hbc⟩

/-- Python's `enumerate` starting at `n`, keyed the way
`Map(\x7boutput_key: i for i, output_key in enumerate(...)\x7d)` builds its map:
each element paired with its position. -/
def enumRanks : Nat → List α → List (α × Nat)
  | _, [] => []
  | n, k :: ks => (k, n) :: enumRanks (n + 1) ks

/-- `_get_key_to_pos_in_output_template` of the generated host code: collect
the leaf key paths of the (pickled) output template, sort them by the
deterministic key stringifier, and map each path to its position. -/
def keyToPos (t : Ctr α) : List (List String × Nat) :=
  enumRanks 0 (List.insertionSort strLe (Ctr.paths [] t))

/-- `keys_to_pos[keys]` lookup of the generated host code (total model:
defaults to 0; the proofs only use it on paths present in the template). -/
def posOfKey (t : Ctr α) (p : List String) : Nat :=
  (List.lookup p (keyToPos t)).getD 0

/-- The default array used to totalize list indexing in the model. -/
def dummyArr : NDArray := ⟨[], "", []⟩

/-- The container reassembly performed by the generated `rhs`:
`rec_keyed_map_array_container(to_output_template, output_template)` with
`to_output_template(keys, _) = result_as_np_obj_array[keys_to_pos[keys]]`. -/
def reconstructFromTemplate (t : Ctr Unit) (flat : List NDArray) : Ctr NDArray :=
  Ctr.mapWithKey (fun p _ => flat.getD (posOfKey t p) dummyArr) [] t

/-- Modelled from the spec: the compiled inner function (emitted by the
missing `dg_benchmarks.codegen.pytato_target.generate_arraycontext_code`)
returns the output leaves as a flat object array ordered by the same
position assignment that `_get_key_to_pos_in_output_template` computes;
so flattening a container lists its leaf values in sorted-key order. -/
def flattenValues (c : Ctr NDArray) : List NDArray :=
  (List.insertionSort strLe (Ctr.paths [] c)).map
    (fun p => ((Ctr.valuesWithPaths [] c).lookup p).getD dummyArr)

/-- The structural output template: the output container with each leaf
replaced by a unit marker (the pickled `placeholder_out_template` carries
placeholder arrays at the leaves; only its structure is used by `rhs`). -/
def templateOf (c : Ctr α) : Ctr Unit :=
  Ctr.mapWithKey (fun _ _ => ()) [] c

/-! ### Structural lemmas about container traversal -/

mutual
theorem Ctr.mapWithKey_comp {α β γ : Type} (f : List String → β → γ)
    (g : List String → α → β) (pre : List String) : (c : Ctr α) →
    Ctr.mapWithKey f pre (Ctr.mapWithKey g pre c)
      = Ctr.mapWithKey (fun p a => f p (g p a)) pre c
  | .leaf _ => rfl
  | .node cs => congrArg Ctr.node (KList.mapWithKey_comp_klist f g pre cs)

theorem KList.mapWithKey_comp_klist {α β γ : Type} (f : List String → β → γ)
    (g : List String → α → β) (pre : List String) : (cs : KList α) →
    KList.mapWithKey f pre (KList.mapWithKey g pre cs)
      = KList.mapWithKey (fun p a => f p (g p a)) pre cs
  | .nil => rfl
  | .cons k c rest => by
      simp only [KList.mapWithKey, Ctr.mapWithKey_comp f g (pre ++ [k]) c,
        KList.mapWithKey_comp_klist f g pre rest]
end

mutual
theorem Ctr.valuesWithPaths_mapWithKey {α β : Type} (f : List String → α → β)
    (pre : List String) : (c : Ctr α) →
    Ctr.valuesWithPaths pre (Ctr.mapWithKey f pre c)
      = (Ctr.valuesWithPaths pre c).map (fun pa => (pa.1, f pa.1 pa.2))
  | .leaf _ => rfl
  | .node cs => KList.valuesWithPaths_mapWithKey_klist f pre cs

theorem KList.valuesWithPaths_mapWithKey_klist {α β : Type} (f : List String → α → β)
    (pre : List String) : (cs : KList α) →
    KList.valuesWithPaths pre (KList.mapWithKey f pre cs)
      = (KList.valuesWithPaths pre cs).map (fun pa => (pa.1, f pa.1 pa.2))
  | .nil => rfl
  | .cons k c rest => by
      simp only [KList.mapWithKey, KList.valuesWithPaths, List.map_append,
        Ctr.valuesWithPaths_mapWithKey f (pre ++ [k]) c,
        KList.valuesWithPaths_mapWithKey_klist f pre rest]
end

mutual
theorem Ctr.mapWithKey_congr_values {α β : Type} (f g : List String → α → β)
    (pre : List String) : (c : Ctr α) →
    (∀ pa ∈ Ctr.valuesWithPaths pre c, f pa.1 pa.2 = g pa.1 pa.2) →
    Ctr.mapWithKey f pre c = Ctr.mapWithKey g pre c
  | .leaf a, h => by
      simpa [Ctr.mapWithKey] using h (pre, a) (by simp [Ctr.valuesWithPaths])
  | .node cs, h => congrArg Ctr.node (KList.mapWithKey_congr_values_klist f g pre cs h)

theorem KList.mapWithKey_congr_values_klist {α β : Type} (f g : List String → α → β)
    (pre : List String) : (cs : KList α) →
    (∀ pa ∈ KList.valuesWithPaths pre cs, f pa.1 pa.2 = g pa.1 pa.2) →
    KList.mapWithKey f pre cs = KList.mapWithKey g pre cs
  | .nil, _ => rfl
  | .cons k c rest, h => by
      simp only [KList.mapWithKey]
      refine congrArg₂ (KList.cons k) ?_ ?_
      · exact Ctr.mapWithKey_congr_values f g (pre ++ [k]) c
          (fun pa hpa => h pa (by simp [KList.valuesWithPaths, hpa]))
      · exact KList.mapWithKey_congr_values_klist f g pre rest
          (fun pa hpa => h pa (by simp [KList.valuesWithPaths, hpa]))
end

mutual
theorem Ctr.mapWithKey_id {α : Type} (pre : List String) : (c : Ctr α) →
    Ctr.mapWithKey (fun _ a => a) pre c = c
  | .leaf _ => rfl
  | .node cs => congrArg Ctr.node (KList.mapWithKey_id_klist pre cs)

theorem KList.mapWithKey_id_klist {α : Type} (pre : List String) : (cs : KList α) →
    KList.mapWithKey (fun _ a => a) pre cs = cs
  | .nil => rfl
  | .cons k c rest => by
      simp only [KList.mapWithKey, Ctr.mapWithKey_id (pre ++ [k]) c,
        KList.mapWithKey_id_klist pre rest]
end

mutual
theorem Ctr.mapWithKey_pre_irrel {α β : Type} (g : α → β)
    (pre pre' : List String) : (c : Ctr α) →
    Ctr.mapWithKey (fun _ a => g a) pre c = Ctr.mapWithKey (fun _ a => g a) pre' c
  | .leaf _ => rfl
  | .node cs => congrArg Ctr.node (KList.mapWithKey_pre_irrel_klist g pre pre' cs)

theorem KList.mapWithKey_pre_irrel_klist {α β : Type} (g : α → β)
    (pre pre' : List String) : (cs : KList α) →
    KList.mapWithKey (fun _ a => g a) pre cs
      = KList.mapWithKey (fun _ a => g a) pre' cs
  | .nil => rfl
  | .cons k c rest => by
      simp only [KList.mapWithKey,
        Ctr.mapWithKey_pre_irrel g (pre ++ [k]) (pre' ++ [k]) c,
        KList.mapWithKey_pre_irrel_klist g pre pre' rest]
end

/-- The key paths of a mapped container are those of the original. -/
theorem Ctr.paths_mapWithKey {α β : Type} (f : List String → α → β)
    (pre : List String) (c : Ctr α) :
    Ctr.paths pre (Ctr.mapWithKey f pre c) = Ctr.paths pre c := by
  simp [Ctr.paths, Ctr.valuesWithPaths_mapWithKey]

/-! ### Lemmas about `enumRanks` and association-list lookup -/

theorem lookup_enumRanks_of_mem {α : Type} [BEq α] [LawfulBEq α] :
    ∀ (l : List α) (p : α), p ∈ l → ∀ n : Nat,
      ∃ i, List.lookup p (enumRanks n l) = some (n + i) ∧ l[i]? = some p
  | [], p, h, _ => absurd h (List.not_mem_nil p)
  | k :: ks, p, h, n => by
      by_cases hp : p = k
      · refine ⟨0, ?_, ?_⟩
        · simp [enumRanks, List.lookup, hp]
        · simp [hp]
      · have hmem : p ∈ ks := by
          rcases List.mem_cons.mp h with h' | h'
          · exact absurd h' hp
          · exact h'
        obtain ⟨i, hl, hg⟩ := lookup_enumRanks_of_mem ks p hmem (n + 1)
        refine ⟨i + 1, ?_, ?_⟩
        · have : (p == k) = false := beq_eq_false_iff_ne.mpr hp
          simp only [enumRanks, List.lookup, this]
          rw [hl]
          congr 1
          omega
        · simpa using hg

theorem lookup_eq_of_mem_of_nodup {α β : Type} [BEq α] [LawfulBEq α] :
    ∀ (l : List (α × β)) (p : α) (b : β), (p, b) ∈ l →
      (l.map Prod.fst).Nodup → List.lookup p l = some b
  | (k, v) :: rest, p, b, hmem, hnd => by
      rcases List.mem_cons.mp hmem with h' | h'
      · obtain ⟨hp, hb⟩ := Prod.mk.injEq .. ▸ h'
        simp [List.lookup, hp, hb]
      · have hnd' : (k :: rest.map Prod.fst).Nodup := by
          simpa using hnd
        have hk : k ∉ rest.map Prod.fst := (List.nodup_cons.mp hnd').1
        have hp : p ≠ k := by
          rintro rfl
          exact hk (List.mem_map.mpr ⟨(p, b), h', rfl⟩)
        have hne : (p == k) = false := beq_eq_false_iff_ne.mpr hp
        simp only [List.lookup, hne]
        exact lookup_eq_of_mem_of_nodup rest p b h'
          (List.nodup_cons.mp hnd').2

/-- Indexing a mapped list at the rank that `enumRanks` assigns to a
present element recovers the image of that element. -/
theorem getD_map_at_rank {α β : Type} [BEq α] [LawfulBEq α] (l : List α) (p : α)
    (hp : p ∈ l) (f : α → β) (d : β) :
    (l.map f).getD ((List.lookup p (enumRanks 0 l)).getD 0) d = f p := by
  obtain ⟨i, hl, hg⟩ := lookup_enumRanks_of_mem l p hp 0
  rw [hl]
  simp only [Option.getD_some, Nat.zero_add]
  rw [List.getD_eq_getElem?_getD, List.getElem?_map, hg]
  rfl

/-- C7: for every structured output container (with the distinct sibling
keys that Python mappings guarantee, i.e. no duplicate leaf paths),
reconstructing from the persisted output template and the flat sequence of
leaf values yields the original container back — same container kinds,
key set and leaf arrangement (proved as on-the-nose equality), at any
nesting depth. -/
theorem claim_C7_template_roundtrip (c : Ctr NDArray)
    (hnd : (Ctr.paths [] c).Nodup) :
    reconstructFromTemplate (templateOf c) (flattenValues c) = c := by
  have hpaths : Ctr.paths [] (templateOf c) = Ctr.paths [] c :=
    Ctr.paths_mapWithKey _ _ c
  unfold reconstructFromTemplate
  unfold templateOf
  rw [Ctr.mapWithKey_comp]
  have hpointwise : ∀ pa ∈ Ctr.valuesWithPaths ([] : List String) c,
      (flattenValues c).getD (posOfKey (templateOf c) pa.1) dummyArr = pa.2 := by
    intro pa hpa
    have hmem : pa.1 ∈ Ctr.paths [] c :=
      List.mem_map.mpr ⟨pa, hpa, rfl⟩
    have hmem' : pa.1 ∈ List.insertionSort strLe (Ctr.paths [] c) :=
      (List.perm_insertionSort strLe (Ctr.paths [] c)).mem_iff.mpr hmem
    have hlook :
        List.lookup pa.1 (Ctr.valuesWithPaths ([] : List String) c) = some pa.2 :=
      lookup_eq_of_mem_of_nodup _ pa.1 pa.2 hpa hnd
    unfold posOfKey keyToPos flattenValues
    rw [hpaths]
    rw [getD_map_at_rank (List.insertionSort strLe (Ctr.paths [] c)) pa.1 hmem']
    rw [hlook]
    rfl
  calc
    Ctr.mapWithKey
        (fun p a => (flattenValues c).getD (posOfKey (templateOf c) p) dummyArr) [] c
      = Ctr.mapWithKey (fun _ a => a) [] c :=
        Ctr.mapWithKey_congr_values _ _ [] c hpointwise
    _ = c := Ctr.mapWithKey_id [] c

/-! ### Argument signature extraction

`_get_arg_id_to_arg_and_arg_id_to_descr` lives in arraycontext, outside
this repository's sources. -/

/-- Modelled from the spec: the Argument Signature Extractor derives from a
call's positional and keyword arguments a flat mapping from each leaf
argument id (the argument position or keyword name followed by the
container key path) to the runtime leaf value.  Positional arguments are
enumerated from 0. -/
def extractArgIds : Nat → List (Ctr NDArray) → List (List String × NDArray)
  | _, [] => []
  | i, a :: rest => Ctr.valuesWithPaths [toString i] a ++ extractArgIds (i + 1) rest

/-- Modelled from the spec: keyword arguments contribute leaf ids rooted at
the keyword name. -/
def extractKwargIds : List (String × Ctr NDArray) → List (List String × NDArray)
  | [] => []
  | (k, a) :: rest => Ctr.valuesWithPaths [k] a ++ extractKwargIds rest

/-- The flat `arg_id_to_arg` mapping of one call. -/
def extractIds (args : List (Ctr NDArray))
    (kwargs : List (String × Ctr NDArray)) : List (List String × NDArray) :=
  extractArgIds 0 args ++ extractKwargIds kwargs

/-- The value-independent argument descriptor used as the cache key:
each leaf id together with the leaf's shape and dtype. -/
abbrev DescrKey := List (List String × (List Nat × String))

/-- `arg_id_to_descr` of one call. -/
def descrOfCall (args : List (Ctr NDArray))
    (kwargs : List (String × Ctr NDArray)) : DescrKey :=
  (extractIds args kwargs).map (fun pa => (pa.1, (pa.2.shape, pa.2.dtype)))

/-! ### Placeholder tracing -/

/-- A symbolic placeholder substituted for a leaf argument at trace time:
carries the program-level input name, the shape and the dtype of the leaf,
but no value. -/
structure Placeholder where
  name : String
  shape : List Nat
  dtype : String
deriving DecidableEq, Repr

/-- `_get_f_placeholder_args`: replace every leaf of an argument container
by a placeholder named after its arg id (the
`_actx_in_<stringified id>` naming of `input_id_to_name_in_program`). -/
def placeholderCtr (pre : List String) (c : Ctr NDArray) : Ctr Placeholder :=
  Ctr.mapWithKey
    (fun p a => { name := "_actx_in_" ++ keyStringifier p,
                  shape := a.shape, dtype := a.dtype }) pre c

/-- Placeholder forms of the positional arguments, enumerated from `i`. -/
def placeholderArgsFrom : Nat → List (Ctr NDArray) → List (Ctr Placeholder)
  | _, [] => []
  | i, a :: rest => placeholderCtr [toString i] a :: placeholderArgsFrom (i + 1) rest

/-- Placeholder forms of the positional arguments of a call. -/
def placeholderArgsOf (args : List (Ctr NDArray)) : List (Ctr Placeholder) :=
  placeholderArgsFrom 0 args

/-- Placeholder forms of the keyword arguments of a call. -/
def placeholderKwargsOf (kwargs : List (String × Ctr NDArray)) :
    List (String × Ctr Placeholder) :=
  kwargs.map (fun ka => (ka.1, placeholderCtr [ka.1] ka.2))

/-- The result of tracing the user function over placeholders
(`output_template = self.f(...)`): a bare graph array, an array container
of graph arrays, or something unsupported (a scalar or an arbitrary
object, identified by its class name). -/
inductive TraceOut where
  | array (a : SymArr)
  | container (c : Ctr SymArr)
  | scalar (v : Int)
  | other (cls : String)
deriving DecidableEq, Repr

/-- The check at the top of the miss path:
`is_array_container_type(output_template.__class__) or
isinstance(output_template, pt.Array)`. -/
def TraceOut.isSupported : TraceOut → Bool
  | .array _ => true
  | .container _ => true
  | .scalar _ => false
  | .other _ => false

/-- `_as_dict_of_named_arrays` accumulated over the symbolic output: each
output leaf keyed by `_pt_out_<stringified key path>` (a bare array is a
single leaf with the empty key path). -/
def dictOfNamedArraysOf : TraceOut → List (String × SymArr)
  | .array a => [("_pt_out_", a)]
  | .container c =>
      (Ctr.valuesWithPaths [] c).map
        (fun pa => ("_pt_out_" ++ keyStringifier pa.1, pa.2))
  | .scalar _ => []
  | .other _ => []

/-- The pickled output template: either a bare placeholder array (the user
function returned a single array) or a container whose structure mirrors
the output (leaves carry placeholders; only the structure matters). -/
inductive OutTemplate where
  | single
  | container (t : Ctr Unit)
deriving DecidableEq, Repr

/-- `placeholder_out_template` reduced to its structural content. -/
def templateOfTrace : TraceOut → OutTemplate
  | .container c => .container (templateOf c)
  | _ => .single

/-! ### Errors -/

/-- The failure modes of the cache (Python exception classes). -/
inductive Err where
  | notImplemented (msg : String)
  | typeError
  | assertionError
  | valueError
  | attributeError
deriving DecidableEq, Repr

/-! ### The generated host code -/

/-- Python string sorting (used to model keyword-argument binding: a call
with keyword arguments succeeds exactly when the multiset of given names
matches the multiset of expected parameter names). -/
def sortStrings (l : List String) : List String :=
  List.insertionSort strLeP l

/-- `assert result_as_np_obj_array.shape == (1,); return
result_as_np_obj_array[0]` — the tail of the generated `rhs` when the user
function returned a bare array: the flat result must have exactly one
entry, which is returned; any other shape fails the assertion. -/
def rhsReturnSingle (flat : List NDArray) : Except Err NDArray :=
  match flat with
  | [a] => .ok a
  | _ => .error .assertionError

/-- The in-memory compiled unit produced by executing the emitted host
code: the parameter names the compiled inner function expects (one
`_actx_in_<id>` per leaf of the original call) and the pickled output
template it reassembles results with. -/
structure CompiledUnit where
  expectedInnerNames : List String
  outTemplate : OutTemplate
deriving DecidableEq, Repr

/-- The generated `rhs(actx, *args, **kwargs)` entry point: re-extracts the
flat leaf binding from its own arguments, binds each leaf to the inner
function's `_actx_in_` keyword, runs the compiled inner function
(semantics `innerSem`, returning the flat output leaves), and reassembles
the output through the pickled template.  Passing keywords the inner
function does not expect raises a TypeError. -/
def generatedRhs (unit : CompiledUnit)
    (innerSem : List (String × NDArray) → List NDArray)
    (args : List (Ctr NDArray)) (kwargs : List (String × Ctr NDArray)) :
    Except Err (Ctr NDArray) :=
  let ids := extractIds args kwargs
  let innerKwargs := ids.map (fun pa => ("_actx_in_" ++ keyStringifier pa.1, pa.2))
  if sortStrings (ids.map (fun pa => "_actx_in_" ++ keyStringifier pa.1))
      = sortStrings unit.expectedInnerNames then
    let flat := innerSem innerKwargs
    match unit.outTemplate with
    | .container t => .ok (reconstructFromTemplate t flat)
    | .single => (rhsReturnSingle flat).map Ctr.leaf
  else .error .typeError

/-- The emitted host source text.  Call-dependent content: the inner code
emitted from the named symbolic outputs (`generate_arraycontext_code`,
modelled from the spec as an arbitrary deterministic function `genCode` of
the named graph), and the two artifact paths relative to the benchmarks
root that are spliced into the text.  The surrounding constant boilerplate
(imports, the memoized loader, the output-template helpers and the `rhs`
driver) is abridged here; being constant, it cannot affect determinism. -/
def hostSource (genCode : List (String × SymArr) → String)
    (dwRel otRel : String) (named : List (String × SymArr)) : String :=
  "from pytools import memoize_on_first_arg\n"
    ++ "from functools import cache\n"
    ++ "from immutables import Map\n"
    ++ "from arraycontext import is_array_container_type\n"
    ++ "from arraycontext.container.traversal import"
    ++ " rec_keyed_map_array_container\n"
    ++ "from dg_benchmarks.utils import get_dg_benchmarks_path\n\n"
    ++ genCode named
    ++ "\n\n@memoize_on_first_arg\ndef _get_compiled_rhs_inner(actx):\n"
    ++ "    npzfile = np.load(os.path.join(get_dg_benchmarks_path(), "
    ++ dwRel
    ++ "))\n    return actx.compile(_rhs_inner_bound)\n\n"
    ++ "@cache\ndef _get_output_template():\n"
    ++ "    fpath = os.path.join(get_dg_benchmarks_path(), "
    ++ otRel
    ++ ")\n    return load_pickle(fpath)\n\n"
    ++ "@cache\ndef _get_key_to_pos_in_output_template():\n"
    ++ "    return map_of_sorted_output_keys()\n\n"
    ++ "def rhs(actx, *args, **kwargs):\n"
    ++ "    return reassemble(compiled_rhs_inner_result(args, kwargs))\n"

/-! ### `LazilyArraycontextCompilingFunctionCaller.__call__` -/

/-- `np_args = tuple(self.actx.to_numpy(arg) for arg in args)`:
`to_numpy` converts device arrays to host numpy arrays; on the
backend-neutral numeric value model it preserves the values, so it is the
identity here. -/
def toNumpyCtr (c : Ctr NDArray) : Ctr NDArray := c

/-- The second component of the pickled reference-input pair as written to
disk: the code writes a tuple (built from the positional arguments), while
a keyword-argument capture would be a mapping. -/
inductive RefKwForm where
  | tup : List (Ctr NDArray) → RefKwForm
  | dict : List (String × Ctr NDArray) → RefKwForm
deriving DecidableEq, Repr

/-- One file write performed by the miss path, in program order. -/
inductive FileWrite where
  | mainFile (text : String)
  | dataWrappers
  | refInputPkl (posArgs : List (Ctr NDArray)) (kwArgs : RefKwForm)
  | outTemplatePkl (t : OutTemplate)
  | refOutputPkl (out : Ctr NDArray)
deriving DecidableEq, Repr

/-- The per-descriptor environment of one call: the user function's
behavior (its trace over placeholders and its concrete evaluation), the
semantics of the compiled inner function, the code emitter and formatter
passes, and the relative artifact paths spliced into the host code. -/
structure CallerEnv where
  fName : String
  fTrace : TraceOut
  fConcrete : List (Ctr NDArray) → List (String × Ctr NDArray) → Ctr NDArray
  innerSem : List (String × NDArray) → List NDArray
  genCode : List (String × SymArr) → String
  fmtPass : String → String
  dwRel : String
  otRel : String

/-- The observable outcome of one `__call__`: the returned value or raised
exception, the in-memory `program_cache` afterward, how many times the
user function `f` was invoked during the call, and the file writes
performed, in order. -/
structure StepOut where
  result : Except Err (Ctr NDArray)
  cache : List (DescrKey × CompiledUnit)
  fCalls : Nat
  writes : List FileWrite

/-- Builds a keyed container from a list of (key, child) pairs. -/
def klistOfPairs : List (String × Ctr α) → KList α
  | [] => .nil
  | (k, c) :: rest => .cons k c (klistOfPairs rest)

/-- The value passed to the cached callable on a hit:
`compiled_f(arg_id_to_arg)` hands the flat leaf-binding map over as ONE
positional argument (a mapping from stringified arg ids to leaf arrays),
not as the original argument list. -/
def leafMapArg (ids : List (List String × NDArray)) : Ctr NDArray :=
  Ctr.node (klistOfPairs (ids.map (fun pa => (keyStringifier pa.1, Ctr.leaf pa.2))))

/-- One invocation of `LazilyArraycontextCompilingFunctionCaller.__call__`,
faithful to the source order:

1. extract `(arg_id_to_arg, arg_id_to_descr)`;
2. on a cache hit return `compiled_f(arg_id_to_arg)` — the flat map as a
   single positional argument to the stored `rhs`;
3. on a miss, trace `f` over placeholders (one `f` invocation); reject
   unsupported output kinds before any emission or write;
4. emit and format the host source, write it, write the aux-data archive,
   write the pickled reference-input pair `(np_args, np_args)` (the code
   builds both components from the positional args), write the pickled
   output template; evaluate `f` on the concrete arguments (second `f`
   invocation) and write the pickled reference output;
5. exec the host code and register the compiled unit in `program_cache`;
6. only then run the unit on the call's arguments and compare against the
   reference output (`np.testing.assert_allclose`, modelled as equality of
   the integer value model); a mismatch raises, and an exception from the
   run propagates, with the unit still registered. -/
def callStep (env : CallerEnv) (cache : List (DescrKey × CompiledUnit))
    (args : List (Ctr NDArray)) (kwargs : List (String × Ctr NDArray)) :
    StepOut :=
  let ids := extractIds args kwargs
  let descr := descrOfCall args kwargs
  match List.lookup descr cache with
  | some unit =>
      { result := generatedRhs unit env.innerSem [leafMapArg ids] []
        cache := cache
        fCalls := 0
        writes := [] }
  | none =>
      if env.fTrace.isSupported then
        let named := dictOfNamedArraysOf env.fTrace
        let tmpl := templateOfTrace env.fTrace
        let srcText := env.fmtPass (hostSource env.genCode env.dwRel env.otRel named)
        let npArgs := args.map toNumpyCtr
        let refOut := env.fConcrete args kwargs
        let unit : CompiledUnit :=
          { expectedInnerNames := ids.map (fun pa => "_actx_in_" ++ keyStringifier pa.1)
            outTemplate := tmpl }
        let cache' := (descr, unit) :: cache
        let writes := [FileWrite.mainFile srcText, FileWrite.dataWrappers,
          FileWrite.refInputPkl npArgs (RefKwForm.tup npArgs),
          FileWrite.outTemplatePkl tmpl, FileWrite.refOutputPkl refOut]
        match generatedRhs unit env.innerSem args kwargs with
        | .ok o =>
            if o = refOut then
              { result := .ok o, cache := cache', fCalls := 2, writes := writes }
            else
              { result := .error .assertionError, cache := cache'
                fCalls := 2, writes := writes }
        | .error e =>
            { result := .error e, cache := cache', fCalls := 2, writes := writes }
      else
        { result := .error (Err.notImplemented env.fName)
          cache := cache
          fCalls := 1
          writes := [] }

/-! ### `measure.get_flop_rate`, the consumer of the reference input -/

/-- `np_args, np_kwargs = pickle.load(fp)` followed by
`np_kwargs.values()` / `np_kwargs.items()` in `get_flop_rate`: the second
pickled component is used as a mapping; a tuple has no such methods, which
raises an AttributeError. -/
def npKwargsItems : RefKwForm → Except Err (List (String × Ctr NDArray))
  | .dict l => .ok l
  | .tup _ => .error .attributeError

/-! ### `SuiteGeneratingArraycontext.__init__` -/

/-- `os.path.isabs` on POSIX paths: the path begins with a slash. -/
def isabs (p : String) : Bool :=
  match p.data with
  | [] => false
  | c :: _ => c = '/'

/-- The constructed cache instance: the five artifact paths it stores. -/
structure SuiteGeneratingArraycontext where
  main_file_path : String
  datawrappers_path : String
  pickled_ref_input_args_path : String
  pickled_ref_output_path : String
  pickled_output_template_path : String
deriving DecidableEq, Repr

/-! ### Emission as a function of the call -/

/-- The shape skeleton of an argument container: each leaf replaced by its
(shape, dtype).  Two arguments are structurally identical exactly when
their shape skeletons are equal. -/
def shapeCtr (c : Ctr NDArray) : Ctr (List Nat × String) :=
  Ctr.mapWithKey (fun _ a => (a.shape, a.dtype)) [] c

/-- The text written to `main_file_path` by one (cache-cleared) compilation
of a call, as a function of the full call: trace the user function `f`
over the call's placeholder arguments, name the symbolic outputs, emit the
inner code and splice it into the host source, then run the cleanup and
formatting passes (`autoflake` + `black`, the deterministic function
`fmtPass`).  `none` when the traced output kind is unsupported (nothing is
written then). -/
def emittedMainText
    (f : List (Ctr Placeholder) → List (String × Ctr Placeholder) → TraceOut)
    (genCode : List (String × SymArr) → String) (fmtPass : String → String)
    (dwRel otRel : String)
    (args : List (Ctr NDArray)) (kwargs : List (String × Ctr NDArray)) :
    Option String :=
  let t := f (placeholderArgsOf args) (placeholderKwargsOf kwargs)
  if t.isSupported then
    some (fmtPass (hostSource genCode dwRel otRel (dictOfNamedArraysOf t)))
  else none

/-- The per-leaf descriptor projection. -/
def descrPair (pa : List String × NDArray) : List String × (List Nat × String) :=
  (pa.1, (pa.2.shape, pa.2.dtype))

theorem descrPairs_eq_values_shapeCtr (pre : List String) (c : Ctr NDArray) :
    (Ctr.valuesWithPaths pre c).map descrPair
      = Ctr.valuesWithPaths pre (shapeCtr c) := by
  unfold shapeCtr
  rw [Ctr.mapWithKey_pre_irrel (fun a : NDArray => (a.shape, a.dtype)) [] pre]
  rw [Ctr.valuesWithPaths_mapWithKey]
  rfl

theorem placeholderCtr_eq_map_shapeCtr (pre : List String) (c : Ctr NDArray) :
    placeholderCtr pre c
      = Ctr.mapWithKey
          (fun p sd => Placeholder.mk ("_actx_in_" ++ keyStringifier p) sd.1 sd.2)
          pre (shapeCtr c) := by
  unfold placeholderCtr shapeCtr
  rw [Ctr.mapWithKey_pre_irrel (fun a : NDArray => (a.shape, a.dtype)) [] pre]
  rw [Ctr.mapWithKey_comp]

theorem placeholderCtr_congr (pre : List String) {c1 c2 : Ctr NDArray}
    (h : shapeCtr c1 = shapeCtr c2) :
    placeholderCtr pre c1 = placeholderCtr pre c2 := by
  rw [placeholderCtr_eq_map_shapeCtr, placeholderCtr_eq_map_shapeCtr, h]

theorem descrArgIds_congr :
    ∀ (i : Nat) (l1 l2 : List (Ctr NDArray)),
      l1.map shapeCtr = l2.map shapeCtr →
      (extractArgIds i l1).map descrPair = (extractArgIds i l2).map descrPair
  | _, [], [], _ => rfl
  | i, c1 :: r1, c2 :: r2, h => by
      have h1 : shapeCtr c1 = shapeCtr c2 := by
        simpa using congrArg (fun l => l.headD (shapeCtr c1)) h
      have hr : r1.map shapeCtr = r2.map shapeCtr := by
        simpa using congrArg List.tail h
      simp only [extractArgIds, List.map_append]
      rw [descrPairs_eq_values_shapeCtr, h1, ← descrPairs_eq_values_shapeCtr,
        descrArgIds_congr (i + 1) r1 r2 hr]

theorem descrKwargIds_congr :
    ∀ (l1 l2 : List (String × Ctr NDArray)),
      l1.map (fun ka => (ka.1, shapeCtr ka.2))
        = l2.map (fun ka => (ka.1, shapeCtr ka.2)) →
      (extractKwargIds l1).map descrPair = (extractKwargIds l2).map descrPair
  | [], [], _ => rfl
  | (k1, c1) :: r1, (k2, c2) :: r2, h => by
      have hk : k1 = k2 := by
        have := congrArg (fun l => (l.headD (k1, shapeCtr c1)).1) h
        simpa using this
      have h1 : shapeCtr c1 = shapeCtr c2 := by
        have := congrArg (fun l => (l.headD (k1, shapeCtr c1)).2) h
        simpa using this
      have hr : r1.map (fun ka => (ka.1, shapeCtr ka.2))
          = r2.map (fun ka => (ka.1, shapeCtr ka.2)) := by
        simpa using congrArg List.tail h
      simp only [extractKwargIds, List.map_append]
      rw [descrPairs_eq_values_shapeCtr, hk, h1, ← descrPairs_eq_values_shapeCtr,
        descrKwargIds_congr r1 r2 hr]

theorem descrOfCall_congr {a1 a2 : List (Ctr NDArray)}
    {k1 k2 : List (String × Ctr NDArray)}
    (ha : a1.map shapeCtr = a2.map shapeCtr)
    (hk : k1.map (fun ka => (ka.1, shapeCtr ka.2))
        = k2.map (fun ka => (ka.1, shapeCtr ka.2))) :
    descrOfCall a1 k1 = descrOfCall a2 k2 := by
  unfold descrOfCall extractIds
  show (extractArgIds 0 a1 ++ extractKwargIds k1).map descrPair
      = (extractArgIds 0 a2 ++ extractKwargIds k2).map descrPair
  rw [List.map_append, List.map_append, descrArgIds_congr 0 a1 a2 ha,
    descrKwargIds_congr k1 k2 hk]

theorem placeholderArgsFrom_congr :
    ∀ (i : Nat) (l1 l2 : List (Ctr NDArray)),
      l1.map shapeCtr = l2.map shapeCtr →
      placeholderArgsFrom i l1 = placeholderArgsFrom i l2
  | _, [], [], _ => rfl
  | i, c1 :: r1, c2 :: r2, h => by
      have h1 : shapeCtr c1 = shapeCtr c2 := by
        simpa using congrArg (fun l => l.headD (shapeCtr c1)) h
      have hr : r1.map shapeCtr = r2.map shapeCtr := by
        simpa using congrArg List.tail h
      simp only [placeholderArgsFrom]
      rw [placeholderCtr_congr [toString i] h1,
        placeholderArgsFrom_congr (i + 1) r1 r2 hr]

theorem placeholderKwargsOf_congr :
    ∀ (l1 l2 : List (String × Ctr NDArray)),
      l1.map (fun ka => (ka.1, shapeCtr ka.2))
        = l2.map (fun ka => (ka.1, shapeCtr ka.2)) →
      placeholderKwargsOf l1 = placeholderKwargsOf l2
  | [], [], _ => rfl
  | (k1, c1) :: r1, (k2, c2) :: r2, h => by
      have hk : k1 = k2 := by
        have := congrArg (fun l => (l.headD (k1, shapeCtr c1)).1) h
        simpa using this
      have h1 : shapeCtr c1 = shapeCtr c2 := by
        have := congrArg (fun l => (l.headD (k1, shapeCtr c1)).2) h
        simpa using this
      have hr : r1.map (fun ka => (ka.1, shapeCtr ka.2))
          = r2.map (fun ka => (ka.1, shapeCtr ka.2)) := by
        simpa using congrArg List.tail h
      have htail := placeholderKwargsOf_congr r1 r2 hr
      simp only [placeholderKwargsOf, List.map_cons] at htail ⊢
      rw [hk, placeholderCtr_congr [k2] h1, htail]

/-! ### A concrete benchmark function for the executable scenarios

A user function of two positional array arguments (shape `[2]`, dtype
float64) returning the container with the single key `r` holding their
elementwise sum. -/

/-- A shape-`[2]` float64 array with the given data. -/
def exArr (xs : List Int) : NDArray :=
  { shape := [2], dtype := "float64", data := xs }

def exArgsA : List (Ctr NDArray) := [Ctr.leaf (exArr [1, 2]), Ctr.leaf (exArr [3, 4])]

/-- Same descriptor as `exArgsA`, different values. -/
def exArgsB : List (Ctr NDArray) := [Ctr.leaf (exArr [5, 6]), Ctr.leaf (exArr [7, 8])]

def exSym : SymArr := { shape := [2], dtype := "float64", expr := "in0 + in1" }

/-- The symbolic output of tracing the scenario function: a container with
one key `r`. -/
def exTraceOut : TraceOut := .container (Ctr.node (.cons "r" (.leaf exSym) .nil))

def exAdd (a b : NDArray) : NDArray :=
  { shape := a.shape, dtype := a.dtype, data := List.zipWith (· + ·) a.data b.data }

/-- The concrete evaluation of the scenario function. -/
def exConcrete (args : List (Ctr NDArray)) (_ : List (String × Ctr NDArray)) :
    Ctr NDArray :=
  match args with
  | [Ctr.leaf a, Ctr.leaf b] => Ctr.node (.cons "r" (.leaf (exAdd a b)) .nil)
  | _ => Ctr.leaf dummyArr

/-- A compiled inner function agreeing with the scenario function: reads
its two leaf inputs by keyword and returns the flat singleton output. -/
def exInnerGood (kw : List (String × NDArray)) : List NDArray :=
  [exAdd ((kw.lookup "_actx_in_0").getD dummyArr)
    ((kw.lookup "_actx_in_1").getD dummyArr)]

def exGenCode (named : List (String × SymArr)) : String :=
  String.intercalate "\n" (named.map (fun na => na.1 ++ " = " ++ na.2.expr))

/-- The scenario environment whose compiled code is numerically correct. -/
def exEnvGood : CallerEnv :=
  { fName := "rhs"
    fTrace := exTraceOut
    fConcrete := exConcrete
    innerSem := exInnerGood
    genCode := exGenCode
    fmtPass := id
    dwRel := "suite/data.npz"
    otRel := "suite/template.pkl" }

/-- The scenario environment whose compiled code diverges from the
reference output (the validation gate must reject it). -/
def exEnvBad : CallerEnv :=
  { exEnvGood with innerSem := fun _ => [exArr [0, 0]] }

/-- `SuiteGeneratingArraycontext.__init__`: raise
`ValueError("Absolute paths are expected.")` if any of the five artifact
paths is not absolute; otherwise store the five paths unchanged.  No
tracing, emission or file write happens here. -/
def SuiteGeneratingArraycontext.make (p1 p2 p3 p4 p5 : String) :
    Except Err SuiteGeneratingArraycontext :=
  if [p1, p2, p3, p4, p5].any (fun p => !isabs p) then
    .error .valueError
  else
    .ok { main_file_path := p1
          datawrappers_path := p2
          pickled_ref_input_args_path := p3
          pickled_ref_output_path := p4
          pickled_output_template_path := p5 }

deriving instance DecidableEq for Except

/-! ## The claims -/

/-- C1: the claim states that after a failed validation the cache map
contains no entry for the descriptor.  The code registers the unit in
`program_cache` (line 259) before running the validation (lines 262-269),
and removes nothing on failure: at a concrete descriptor whose compiled
code diverges from the reference output, the call raises the validation
error, yet the cache map afterward still holds the unit. -/
theorem claim_C1_failed_validation_leaves_cache_entry :
    (callStep exEnvBad [] exArgsA []).result = .error .assertionError
  ∧ List.lookup (descrOfCall exArgsA []) (callStep exEnvBad [] exArgsA []).cache
      = some { expectedInnerNames := ["_actx_in_0", "_actx_in_1"],
               outTemplate := .container (.node (.cons "r" (.leaf ()) .nil)) } := by
  decide

/-- C2, counterexample: on the cache-miss path the user function is
invoked twice, not exactly once — once on placeholders to trace, and once
on the concrete arguments to capture the reference output (line 241). -/
theorem claim_C2_counterexample :
    (callStep exEnvGood [] exArgsA []).fCalls = 2
  ∧ (callStep exEnvGood [] exArgsA []).fCalls ≠ 1 := by
  decide

/-- C2, amended: on a cache miss whose traced output kind is supported the
user function is invoked exactly twice (once at trace time on
placeholders, once on the concrete arguments for the reference output);
a call whose descriptor is already cached invokes it zero times. -/
theorem claim_C2_call_counts :
    (∀ (env : CallerEnv) (cache : List (DescrKey × CompiledUnit))
        (args : List (Ctr NDArray)) (kwargs : List (String × Ctr NDArray)),
        List.lookup (descrOfCall args kwargs) cache = none →
        env.fTrace.isSupported = true →
        (callStep env cache args kwargs).fCalls = 2)
  ∧ (∀ (env : CallerEnv) (cache : List (DescrKey × CompiledUnit))
        (args : List (Ctr NDArray)) (kwargs : List (String × Ctr NDArray))
        (u : CompiledUnit),
        List.lookup (descrOfCall args kwargs) cache = some u →
        (callStep env cache args kwargs).fCalls = 0) := by
  constructor
  · intro env cache args kwargs hmiss hsup
    simp only [callStep, hmiss, hsup]
    rw [if_pos trivial]
    split
    · split <;> rfl
    · rfl
  · intro env cache args kwargs u hhit
    simp [callStep, hhit]

/-- A concrete compiled unit for the scenario descriptor. -/
def exUnit : CompiledUnit :=
  { expectedInnerNames := ["_actx_in_0", "_actx_in_1"]
    outTemplate := .container (.node (.cons "r" (.leaf ()) .nil)) }

theorem claim_C2_call_counts_witness :
    (callStep exEnvGood [] exArgsA []).fCalls = 2
  ∧ (callStep exEnvGood [(descrOfCall exArgsA [], exUnit)] exArgsA []).fCalls = 0 :=
  ⟨claim_C2_call_counts.1 exEnvGood [] exArgsA [] (by decide) (by decide),
   claim_C2_call_counts.2 exEnvGood [(descrOfCall exArgsA [], exUnit)] exArgsA []
     exUnit (by decide)⟩

/-- C3: the claim states that a call hitting the cache returns the same
result as invoking the user function directly.  The hit path instead hands
the flat leaf-binding map to the stored `rhs` as one positional argument
(`compiled_f(arg_id_to_arg)`, line 77), while the generated `rhs` expects
the original `(*args, **kwargs)`; re-extraction over the map produces
inner-argument names one level deeper than the compiled inner function's
parameters, so the hit call raises a TypeError instead of returning the
user function's value: after a successful first compilation, a second
structurally identical call fails although direct evaluation succeeds. -/
theorem claim_C3_cache_hit_not_transparent :
    (callStep exEnvGood [] exArgsA []).result = .ok (exConcrete exArgsA [])
  ∧ descrOfCall exArgsB [] = descrOfCall exArgsA []
  ∧ (callStep exEnvGood (callStep exEnvGood [] exArgsA []).cache exArgsB []).result
      = .error .typeError
  ∧ exConcrete exArgsB [] = Ctr.node (.cons "r" (.leaf (exArr [12, 14])) .nil) := by
  decide

def exPosArgs : List (Ctr NDArray) := [Ctr.leaf (exArr [1, 2])]

def exKwArgs : List (String × Ctr NDArray) := [("y", Ctr.leaf (exArr [3, 4]))]

/-- C4: the claim states the persisted reference-input artifact is the
pair (positional arguments, keyword arguments).  The code builds BOTH
components from the positional arguments (`np_kwargs = tuple(... for arg
in args)`, line 234): at a call with one positional and one keyword
argument, the third write is the pair `(np_args, np_args)` whose second
component is a tuple of the positional arguments — not the keyword
mapping — and the consumer `measure.get_flop_rate`, which unpickles this
file and calls `.values()`/`.items()` on the second component, fails with
an AttributeError on it. -/
theorem claim_C4_ref_input_duplicates_positional :
    (callStep exEnvGood [] exPosArgs exKwArgs).writes.getD 2 FileWrite.dataWrappers
      = FileWrite.refInputPkl (exPosArgs.map toNumpyCtr)
          (RefKwForm.tup (exPosArgs.map toNumpyCtr))
  ∧ RefKwForm.tup (exPosArgs.map toNumpyCtr)
      ≠ RefKwForm.dict (exKwArgs.map (fun ka => (ka.1, toNumpyCtr ka.2)))
  ∧ npKwargsItems (RefKwForm.tup (exPosArgs.map toNumpyCtr))
      = .error .attributeError := by
  decide

theorem map_fst_enumRanks {α : Type} :
    ∀ (n : Nat) (l : List α), (enumRanks n l).map Prod.fst = l
  | _, [] => rfl
  | n, k :: ks => by simp [enumRanks, map_fst_enumRanks (n + 1) ks]

theorem map_snd_enumRanks {α : Type} :
    ∀ (n : Nat) (l : List α),
      (enumRanks n l).map Prod.snd = List.range' n l.length
  | _, [] => rfl
  | n, k :: ks => by
      simp [enumRanks, List.range'_succ, map_snd_enumRanks (n + 1) ks]

/-- C5: constructing a `SuiteGeneratingArraycontext` with any of the five
artifact paths non-absolute fails immediately with the ValueError (before
any tracing, emission or file write, none of which the constructor
performs); with all five absolute it succeeds and stores the five paths
unchanged. -/
theorem claim_C5_path_precondition (p1 p2 p3 p4 p5 : String) :
    ((∃ p ∈ [p1, p2, p3, p4, p5], isabs p = false) →
        SuiteGeneratingArraycontext.make p1 p2 p3 p4 p5 = .error .valueError)
  ∧ ((∀ p ∈ [p1, p2, p3, p4, p5], isabs p = true) →
        SuiteGeneratingArraycontext.make p1 p2 p3 p4 p5
          = .ok { main_file_path := p1
                  datawrappers_path := p2
                  pickled_ref_input_args_path := p3
                  pickled_ref_output_path := p4
                  pickled_output_template_path := p5 }) := by
  constructor
  · rintro ⟨p, hp, hfalse⟩
    unfold SuiteGeneratingArraycontext.make
    rw [if_pos]
    exact List.any_eq_true.mpr ⟨p, hp, by simp [hfalse]⟩
  · intro h
    unfold SuiteGeneratingArraycontext.make
    rw [if_neg]
    intro hany
    obtain ⟨p, hp, hbad⟩ := List.any_eq_true.mp hany
    rw [h p hp] at hbad
    simp at hbad

theorem claim_C5_path_precondition_witness :
    SuiteGeneratingArraycontext.make "rel.py" "/a" "/b" "/c" "/d"
        = .error .valueError
  ∧ SuiteGeneratingArraycontext.make "/m.py" "/a" "/b" "/c" "/d"
        = .ok { main_file_path := "/m.py"
                datawrappers_path := "/a"
                pickled_ref_input_args_path := "/b"
                pickled_ref_output_path := "/c"
                pickled_output_template_path := "/d" } :=
  ⟨(claim_C5_path_precondition "rel.py" "/a" "/b" "/c" "/d").1
      ⟨"rel.py", by decide, by decide⟩,
   (claim_C5_path_precondition "/m.py" "/a" "/b" "/c" "/d").2 (by decide)⟩

/-- C6: the output template's position assignment sorts the leaves' key
paths under the deterministic key stringifier and numbers them 0,1,...:
for every template, the keys of `keyToPos` are sorted by stringified key,
are exactly the template's leaf paths, and the positions are
`0, ..., n-1` in that order; in particular a mapping with array leaves at
keys `a` and `b` maps `a` to 0 and `b` to 1.  (`keyToPos` is a pure
function of the template, hence stable across runs for one descriptor.) -/
theorem claim_C6_key_to_pos_sorted :
    (∀ (t : Ctr Unit),
        List.Sorted strLe ((keyToPos t).map Prod.fst)
      ∧ ((keyToPos t).map Prod.fst).Perm (Ctr.paths [] t)
      ∧ (keyToPos t).map Prod.snd = List.range (Ctr.paths [] t).length)
  ∧ keyToPos (Ctr.node (.cons "a" (.leaf ()) (.cons "b" (.leaf ()) .nil)))
      = [(["a"], 0), (["b"], 1)] := by
  refine ⟨fun t => ⟨?_, ?_, ?_⟩, by decide⟩
  · rw [keyToPos, map_fst_enumRanks]
    exact List.sorted_insertionSort strLe _
  · rw [keyToPos, map_fst_enumRanks]
    exact List.perm_insertionSort strLe _
  · rw [keyToPos, map_snd_enumRanks, List.range_eq_range',
      (List.perm_insertionSort strLe (Ctr.paths [] t)).length_eq]

/-- A depth-2 output container for the round-trip witness. -/
def exNested : Ctr NDArray :=
  Ctr.node (.cons "x" (Ctr.node (.cons "u" (.leaf (exArr [1, 2]))
      (.cons "v" (.leaf (exArr [3, 4])) .nil)))
    (.cons "y" (.leaf (exArr [5, 6])) .nil))

theorem claim_C7_template_roundtrip_witness :
    (Ctr.paths [] exNested).Nodup
  ∧ reconstructFromTemplate (templateOf exNested) (flattenValues exNested)
      = exNested :=
  ⟨by decide, claim_C7_template_roundtrip exNested (by decide)⟩

/-- C8: emission is deterministic and value-independent: for any two calls
whose arguments are structurally identical (equal shape skeletons — the
property that makes their descriptors equal), the descriptors are equal
and the emitted main-file text of two independent (cache-cleared)
compilations is byte-identical, for every user function, emitter and
formatter.  (Emission in the model is a pure function of the call, which
is exactly the cleared-cache setting.) -/
theorem claim_C8_emission_deterministic
    (f : List (Ctr Placeholder) → List (String × Ctr Placeholder) → TraceOut)
    (genCode : List (String × SymArr) → String) (fmtPass : String → String)
    (dwRel otRel : String)
    (a1 a2 : List (Ctr NDArray)) (k1 k2 : List (String × Ctr NDArray))
    (ha : a1.map shapeCtr = a2.map shapeCtr)
    (hk : k1.map (fun ka => (ka.1, shapeCtr ka.2))
        = k2.map (fun ka => (ka.1, shapeCtr ka.2))) :
    descrOfCall a1 k1 = descrOfCall a2 k2
  ∧ emittedMainText f genCode fmtPass dwRel otRel a1 k1
      = emittedMainText f genCode fmtPass dwRel otRel a2 k2 := by
  refine ⟨descrOfCall_congr ha hk, ?_⟩
  unfold emittedMainText
  rw [show placeholderArgsOf a1 = placeholderArgsOf a2 from
      placeholderArgsFrom_congr 0 a1 a2 ha,
    placeholderKwargsOf_congr k1 k2 hk]

/-- The traced behavior of the scenario function, as a function of the
placeholder arguments (it returns the `r`-keyed symbolic container for
every placeholder input of the scenario's arity). -/
def exTraceFn (_ : List (Ctr Placeholder))
    (_ : List (String × Ctr Placeholder)) : TraceOut := exTraceOut

theorem claim_C8_emission_deterministic_witness :
    exArgsA ≠ exArgsB
  ∧ descrOfCall exArgsA [] = descrOfCall exArgsB []
  ∧ emittedMainText exTraceFn exGenCode id "suite/data.npz"
        "suite/template.pkl" exArgsA []
      = emittedMainText exTraceFn exGenCode id "suite/data.npz"
        "suite/template.pkl" exArgsB [] :=
  ⟨by decide,
   (claim_C8_emission_deterministic exTraceFn exGenCode id "suite/data.npz"
      "suite/template.pkl" exArgsA exArgsB [] [] (by decide) rfl).1,
   (claim_C8_emission_deterministic exTraceFn exGenCode id "suite/data.npz"
      "suite/template.pkl" exArgsA exArgsB [] [] (by decide) rfl).2⟩

/-- C9: when the traced output is neither a graph array nor a container of
graph arrays (a scalar or arbitrary object), the call on the miss path
raises the unsupported-output error, writes nothing to disk, leaves the
cache unchanged, and has invoked the user function only for the trace. -/
theorem claim_C9_unsupported_output_rejected_before_write
    (env : CallerEnv) (cache : List (DescrKey × CompiledUnit))
    (args : List (Ctr NDArray)) (kwargs : List (String × Ctr NDArray))
    (hmiss : List.lookup (descrOfCall args kwargs) cache = none)
    (hbad : env.fTrace.isSupported = false) :
    (callStep env cache args kwargs).result
        = .error (Err.notImplemented env.fName)
  ∧ (callStep env cache args kwargs).writes = []
  ∧ (callStep env cache args kwargs).cache = cache
  ∧ (callStep env cache args kwargs).fCalls = 1 := by
  simp only [callStep, hmiss, hbad]
  exact ⟨rfl, rfl, rfl, rfl⟩

/-- The scenario environment whose user function returns a scalar. -/
def exEnvScalar : CallerEnv := { exEnvGood with fTrace := TraceOut.scalar 0 }

theorem claim_C9_unsupported_output_witness :
    (callStep exEnvScalar [] exArgsA []).result
        = .error (Err.notImplemented exEnvScalar.fName)
  ∧ (callStep exEnvScalar [] exArgsA []).writes = []
  ∧ (callStep exEnvScalar [] exArgsA []).cache = []
  ∧ (callStep exEnvScalar [] exArgsA []).fCalls = 1 :=
  claim_C9_unsupported_output_rejected_before_write exEnvScalar [] exArgsA []
    (by decide) (by decide)

/-- C10: in the generated `rhs` for a bare-array output template (with the
inner keyword binding succeeding), if the flat result of the compiled
inner function is a single entry (shape `(1,)`), that entry is returned;
for any flat result whose length is not 1 the call fails the assertion
instead of returning a value. -/
theorem claim_C10_single_output_shape_assertion
    (names : List String) (innerSem : List (String × NDArray) → List NDArray)
    (args : List (Ctr NDArray)) (kwargs : List (String × Ctr NDArray))
    (flat : List NDArray)
    (hnames : sortStrings ((extractIds args kwargs).map
        (fun pa => "_actx_in_" ++ keyStringifier pa.1)) = sortStrings names)
    (hflat : innerSem ((extractIds args kwargs).map
        (fun pa => ("_actx_in_" ++ keyStringifier pa.1, pa.2))) = flat) :
    (∀ a, flat = [a] →
        generatedRhs ⟨names, .single⟩ innerSem args kwargs = .ok (.leaf a))
  ∧ (flat.length ≠ 1 →
        generatedRhs ⟨names, .single⟩ innerSem args kwargs
          = .error .assertionError) := by
  simp only [generatedRhs]
  rw [if_pos hnames, hflat]
  constructor
  · intro a ha
    rw [ha]
    rfl
  · intro hlen
    match flat, hlen with
    | [], _ => rfl
    | [a], h => exact absurd rfl h
    | a :: b :: t, _ => rfl

theorem claim_C10_single_output_shape_witness :
    generatedRhs { expectedInnerNames := ["_actx_in_0"], outTemplate := .single }
        (fun _ => [exArr [7, 8]]) [Ctr.leaf (exArr [1, 2])] []
      = .ok (.leaf (exArr [7, 8]))
  ∧ generatedRhs { expectedInnerNames := ["_actx_in_0"], outTemplate := .single }
        (fun _ => [dummyArr, dummyArr]) [Ctr.leaf (exArr [1, 2])] []
      = .error .assertionError :=
  ⟨(claim_C10_single_output_shape_assertion ["_actx_in_0"]
      (fun _ => [exArr [7, 8]]) [Ctr.leaf (exArr [1, 2])] [] [exArr [7, 8]]
      (by decide) rfl).1 (exArr [7, 8]) rfl,
   (claim_C10_single_output_shape_assertion ["_actx_in_0"]
      (fun _ => [dummyArr, dummyArr]) [Ctr.leaf (exArr [1, 2])] []
      [dummyArr, dummyArr] (by decide) rfl).2 (by decide)⟩
